import Mathlib

/-!
Verification of the news_feed ingestion pipeline (src/server.js, src/utils/fetcher.js).

The JavaScript code is shallowly embedded: JSON file reads are `Except String` values
(an `.error` is a thrown `JSON.parse`/`readFileSync` error), timestamps are modelled by
their time value (`Option Int` for dates that may be missing/unparseable — `none` is a JS
`Date` whose value is `NaN` — and `Nat` for `fetched_at`, which is always the valid
`new Date().toISOString()`), and the network / summarization capabilities are explicit
function parameters.
-/

namespace NewsFeed

/-- A configured feed source, one record of `sources.json`:
`{ id, name, url, type, enabled }` (server.js line 64). -/
structure Source where
  id : Nat
  name : String
  url : String
  type : String
  enabled : Bool
deriving DecidableEq

/-- A raw item produced by `fetchSource` (fetcher.js): `{ title, link, published, content }`.
`published` carries the time value of the item's publication date, `none` when it is
missing or unparseable. -/
structure RawItem where
  title : String
  link : String
  published : Option Int
  content : String
deriving DecidableEq

/-- A persisted article, as pushed by `fetchArticles` (server.js lines 206-214). -/
structure Article where
  sourceId : Nat
  sourceName : String
  title : String
  link : String
  published_at : Option Int
  summary : String
  fetched_at : Nat
deriving DecidableEq

/-- A raw entry of a parsed RSS feed (`feed.items` of rss-parser), before the field
mapping done in `fetchSource`; `none` models an absent (`undefined`) field. -/
structure FeedItem where
  title : String
  link : String
  pubDate : Option Int
  contentSnippet : Option String
  content : Option String
deriving DecidableEq

/-- JS `a || b` on possibly-absent strings: `undefined` (`none`) and the empty string
are falsy (used for `i.contentSnippet || i.content || ''`, fetcher.js line 17). -/
def strOr (a : Option String) (b : String) : String :=
  match a with
  | some s => if s = "" then b else s
  | none => b

/-- fetcher.js `fetchSource` (lines 9-22): for a source of type `'rss'`, fetch and parse
the feed at the source's URL (the network + parse step `parser.parseURL`, which may
throw, is the capability `rss`) and map its items; for any other source type, return
the empty list without error. -/
def fetchSource (rss : Source → Except String (List FeedItem)) (src : Source) :
    Except String (List RawItem) :=
  if src.type = "rss" then
    match rss src with
    | .error e => .error e
    | .ok items =>
      .ok (items.map fun i =>
        { title := i.title, link := i.link, published := i.pubDate,
          content := strOr i.contentSnippet (strOr i.content "") })
  else
    .ok []

/-- Modelled from the spec: `src/utils/ai.js` is not part of the source tree. Per §4.3
the summarizer's fallback is "a best-effort fallback summary (e.g. first N characters
of body)"; N is taken to be 200. -/
def fallbackSummary (body : String) : String := body.take 200

/-- Modelled from the spec: `ai.summarize` of the missing `src/utils/ai.js`. Per §4.3 and
§7 the summarizer is total over any input; its underlying capability (`cap`, whose
failure is `none`) "must be caught and degraded to a best-effort fallback summary
rather than aborting the item's ingestion", "never surfaced to the caller". -/
def summarize (cap : String → Option String) (body : String) : String :=
  match cap body with
  | some s => s
  | none => fallbackSummary body

/-- The capabilities an ingestion pass consumes: the RSS network fetch, the summarizer's
underlying capability, and the clock (`new Date().toISOString()` at the n-th admitted
item of the pass). -/
structure PassEnv where
  rss : Source → Except String (List FeedItem)
  cap : String → Option String
  clock : Nat → Nat

/-- The system state `fetchArticles` touches: the `isRunning` guard (server.js line 180)
and the two persisted JSON files; a file read that would throw is an `.error` holding
the thrown message. -/
structure SysState where
  isRunning : Bool
  sourcesFile : Except String (List Source)
  articlesFile : Except String (List Article)

/-- The `{ success, message }` object returned by `fetchArticles`. -/
structure FetchResult where
  success : Bool
  message : String

/-- The outcome of one `fetchArticles` call: its returned result, the state after the
call, and ghost observables of the pass — the merged article list before capacity
enforcement, the `newCount` counter, and the ids of sources whose failure was logged
by the per-source catch (server.js line 218). -/
structure PassOutcome where
  result : FetchResult
  state : SysState
  merged : List Article
  newCount : Nat
  failures : List Nat

/-- The inner item loop of `fetchArticles` (server.js lines 201-216): skip an item when
an article with the same link is already accumulated (`articles.find`, line 203),
otherwise summarize its content and append the new article, counting it. -/
def processItems (env : PassEnv) (src : Source) :
    List RawItem → List Article → Nat → List Article × Nat
  | [], arts, nc => (arts, nc)
  | it :: rest, arts, nc =>
    if (arts.find? fun a => a.link == it.link).isSome then
      processItems env src rest arts nc
    else
      processItems env src rest
        (arts ++ [{ sourceId := src.id, sourceName := src.name, title := it.title,
                    link := it.link, published_at := it.published,
                    summary := summarize env.cap it.content,
                    fetched_at := env.clock nc }]) (nc + 1)

/-- The per-source loop of `fetchArticles` (server.js lines 196-220): each source is
fetched inside a try/catch; a failing fetch is logged (its id recorded in `fails`)
and the loop continues with the next source. -/
def processSources (env : PassEnv) :
    List Source → List Article → Nat → List Nat → List Article × Nat × List Nat
  | [], arts, nc, fails => (arts, nc, fails)
  | src :: rest, arts, nc, fails =>
    match fetchSource env.rss src with
    | .error _ => processSources env rest arts nc (fails ++ [src.id])
    | .ok items =>
      let p := processItems env src items arts nc
      processSources env rest p.1 p.2 fails

/-- server.js line 181. -/
def MAX_ARTICLES : Nat := 200

/-- The ordering used by the capacity sort (server.js line 225): article `a` may come
before `b` when `a` was fetched no earlier than `b`. -/
def fetchedGE (a b : Article) : Prop := b.fetched_at ≤ a.fetched_at

instance : DecidableRel fetchedGE := fun a b => Nat.decLe b.fetched_at a.fetched_at

instance : IsTotal Article fetchedGE :=
  ⟨fun a b => Nat.le_total b.fetched_at a.fetched_at⟩

instance : IsTrans Article fetchedGE :=
  ⟨fun _ _ _ h1 h2 => Nat.le_trans h2 h1⟩

/-- `articles.sort((a, b) => new Date(b.fetched_at) - new Date(a.fetched_at))`
(server.js line 225): `Array.prototype.sort` is required to be stable, modelled by the
stable insertion sort. -/
def sortByFetchedDesc (l : List Article) : List Article := l.insertionSort fetchedGE

/-- Capacity enforcement (server.js lines 223-227): when over `MAX_ARTICLES`, sort by
`fetched_at` descending and keep the first `MAX_ARTICLES`; otherwise leave the list
untouched. -/
def enforceCapacity (l : List Article) : List Article :=
  if MAX_ARTICLES < l.length then (sortByFetchedDesc l).take MAX_ARTICLES else l

/-- server.js `fetchArticles` (lines 183-238): reject when a pass is already running;
otherwise set the guard, read the two files (a throwing read jumps to the catch at
line 232), run the per-source loop, enforce capacity, persist, and reset the guard in
every branch (the `finally` at line 236). -/
def fetchArticles (env : PassEnv) (s : SysState) : PassOutcome :=
  if s.isRunning then
    { result := { success := false, message := "Fetch already in progress" },
      state := s, merged := [], newCount := 0, failures := [] }
  else
    match s.sourcesFile with
    | .error e =>
      { result := { success := false, message := e },
        state := { s with isRunning := false },
        merged := [], newCount := 0, failures := [] }
    | .ok sources =>
      match s.articlesFile with
      | .error e =>
        { result := { success := false, message := e },
          state := { s with isRunning := false },
          merged := [], newCount := 0, failures := [] }
      | .ok articles =>
        let p := processSources env (sources.filter fun x => x.enabled) articles 0 []
        let merged := p.1
        let nc := p.2.1
        let final := enforceCapacity merged
        let total := final.length
        { result := { success := true,
                      message := s!"Fetched {nc} new articles. Total: {total}" },
          state := { s with isRunning := false, articlesFile := .ok final },
          merged := merged, newCount := nc, failures := p.2.2 }

/-- The persisted article list of a state (the parsed contents of `articles.json`),
empty when the file is unreadable. -/
def storeOf (s : SysState) : List Article :=
  match s.articlesFile with
  | .ok l => l
  | .error _ => []

/-- The `/api/feed` comparator (server.js line 92):
`new Date(b.published_at) - new Date(a.published_at)`. A missing or unparseable date
is a `Date` with value `NaN`, and a subtraction involving `NaN` is `NaN`; the engine's
sort moves an element only on a positive comparator value, so `NaN` acts as 0 (no
reorder), which is how it is modelled. -/
def feedCmp (a b : Article) : Int :=
  match a.published_at, b.published_at with
  | some ta, some tb => tb - ta
  | _, _ => 0

/-- Article `a` may stay before `b` under the feed comparator: the comparator does not
demand a swap. -/
def feedLE (a b : Article) : Prop := feedCmp a b ≤ 0

instance : DecidableRel feedLE := fun a b => Int.decLe (feedCmp a b) 0

/-- The sort performed by `/api/feed` (server.js line 92), modelled as the stable
insertion sort over `feedLE`. -/
def jsSortFeed (l : List Article) : List Article := l.insertionSort feedLE

/-- `/api/feed` (server.js lines 88-98): read and parse `articles.json`, sort newest
published first; a throwing read yields the 500 error branch. -/
def feed (articlesFile : Except String (List Article)) : Except String (List Article) :=
  match articlesFile with
  | .error e => .error e
  | .ok l => .ok (jsSortFeed l)

/-- The time value an article sorts by in the feed, `NaN` read as 0. -/
def pubVal (a : Article) : Int := a.published_at.getD 0

/-! ### Sample values used by the witnesses -/

/-- A pass environment with an inert network, a failing summarizer capability and a
constant clock. -/
def anyEnv : PassEnv := { rss := fun _ => .ok [], cap := fun _ => none, clock := fun _ => 0 }

/-- A state in which a pass is already running. -/
def runningState : SysState :=
  { isRunning := true, sourcesFile := .ok [], articlesFile := .ok [] }

/-- An idle state with readable, empty files. -/
def idleState : SysState :=
  { isRunning := false, sourcesFile := .ok [], articlesFile := .ok [] }

/-- An idle state whose articles file does not parse. -/
def corruptState : SysState :=
  { isRunning := false, sourcesFile := .ok [],
    articlesFile := .error "Unexpected token o in JSON at position 1" }

/-- An enabled source of a type other than `'rss'`. -/
def atomSource : Source :=
  { id := 7, name := "a", url := "https://a.example", type := "atom", enabled := true }

/-- An article already in the store for the dedup witnesses. -/
def artX : Article :=
  { sourceId := 1, sourceName := "s", title := "t", link := "https://x/1",
    published_at := some 5, summary := "sum", fetched_at := 3 }

/-- A raw item whose link duplicates `artX`. -/
def itemX : RawItem :=
  { title := "t", link := "https://x/1", published := some 5, content := "c" }

/-- An idle state whose store holds `artX`. -/
def storeState : SysState :=
  { isRunning := false, sourcesFile := .ok [], articlesFile := .ok [artX] }

/-! ### Lemmas about the item and source loops -/

/-- The dedup lookup of server.js line 203 succeeds exactly when the link is among the
accumulated links. -/
theorem find_link_isSome (l : List Article) (x : String) :
    ((l.find? fun a => a.link == x).isSome = true) ↔ x ∈ l.map (·.link) := by
  induction l with
  | nil => simp
  | cons a l ih =>
    by_cases h : a.link = x
    · simp [List.find?_cons, h]
    · have hb : (a.link == x) = false := by simpa using h
      simp [List.find?_cons, hb, ih, h, Ne.symm h]

/-- The item loop only appends: every accumulated article survives it. -/
theorem processItems_mem_mono (env : PassEnv) (src : Source) :
    ∀ (items : List RawItem) (arts : List Article) (nc : Nat) (a : Article),
      a ∈ arts → a ∈ (processItems env src items arts nc).1
  | [], _, _, _, h => h
  | it :: rest, arts, nc, a, h => by
    unfold processItems
    split
    · exact processItems_mem_mono env src rest arts nc a h
    · exact processItems_mem_mono env src rest _ _ a (by simp [h])

/-- The source loop only appends: every accumulated article survives it. -/
theorem processSources_mem_mono (env : PassEnv) :
    ∀ (srcs : List Source) (arts : List Article) (nc : Nat) (fails : List Nat) (a : Article),
      a ∈ arts → a ∈ (processSources env srcs arts nc fails).1
  | [], _, _, _, _, h => h
  | src :: rest, arts, nc, fails, a, h => by
    unfold processSources
    split
    · exact processSources_mem_mono env rest arts nc _ a h
    · exact processSources_mem_mono env rest _ _ fails a
        (processItems_mem_mono env src _ arts nc a h)

/-- The item loop preserves distinctness of the accumulated links: an item is only
admitted when its link is not yet present. -/
theorem processItems_nodup (env : PassEnv) (src : Source) :
    ∀ (items : List RawItem) (arts : List Article) (nc : Nat),
      (arts.map (·.link)).Nodup →
      ((processItems env src items arts nc).1.map (·.link)).Nodup
  | [], _, _, h => h
  | it :: rest, arts, nc, h => by
    unfold processItems
    split
    · exact processItems_nodup env src rest arts nc h
    · next hfind =>
      apply processItems_nodup env src rest
      have hnot : ¬ it.link ∈ arts.map (·.link) := by
        rw [← find_link_isSome]
        simpa using hfind
      simp [List.nodup_append, h, hnot]

/-- The source loop preserves distinctness of the accumulated links. -/
theorem processSources_nodup (env : PassEnv) :
    ∀ (srcs : List Source) (arts : List Article) (nc : Nat) (fails : List Nat),
      (arts.map (·.link)).Nodup →
      ((processSources env srcs arts nc fails).1.map (·.link)).Nodup
  | [], _, _, _, h => h
  | src :: rest, arts, nc, fails, h => by
    unfold processSources
    split
    · exact processSources_nodup env rest arts nc _ h
    · exact processSources_nodup env rest _ _ fails (processItems_nodup env src _ arts nc h)

/-- Every item of a processed batch is covered: after the item loop, some accumulated
article carries its link (it was either already there or admitted now). -/
theorem processItems_covers (env : PassEnv) (src : Source) :
    ∀ (items : List RawItem) (arts : List Article) (nc : Nat),
      ∀ it ∈ items, ∃ a ∈ (processItems env src items arts nc).1, a.link = it.link
  | [], _, _ => by simp
  | it0 :: rest, arts, nc => by
    intro it hit
    rcases List.mem_cons.mp hit with heq | hmem
    · subst heq
      rw [processItems]
      split
      · next hfound =>
        obtain ⟨a, hmem', hl⟩ : ∃ a ∈ arts, a.link = it.link := by
          have := (find_link_isSome arts it.link).mp hfound
          simpa [List.mem_map, eq_comm] using this
        exact ⟨a, processItems_mem_mono env src rest arts nc a hmem', hl⟩
      · refine ⟨{ sourceId := src.id, sourceName := src.name, title := it.title,
                  link := it.link, published_at := it.published,
                  summary := summarize env.cap it.content, fetched_at := env.clock nc },
            processItems_mem_mono env src rest _ _ _ ?_, rfl⟩
        simp
    · rw [processItems]
      split
      · exact processItems_covers env src rest arts nc it hmem
      · exact processItems_covers env src rest _ _ it hmem

/-- Every item of a source that fetched successfully is covered by the source loop. -/
theorem processSources_covers (env : PassEnv) (B : Source) (itemsB : List RawItem)
    (hBf : fetchSource env.rss B = .ok itemsB) :
    ∀ (srcs : List Source) (arts : List Article) (nc : Nat) (fails : List Nat),
      B ∈ srcs → ∀ it ∈ itemsB,
      ∃ a ∈ (processSources env srcs arts nc fails).1, a.link = it.link
  | [], _, _, _, hmem => by simp at hmem
  | src :: rest, arts, nc, fails, hmem => by
    intro it hit
    rw [processSources]
    rcases List.mem_cons.mp hmem with heq | hmem'
    · subst heq
      rw [hBf]
      obtain ⟨a, ha, hl⟩ := processItems_covers env B itemsB arts nc it hit
      exact ⟨a, processSources_mem_mono env rest _ _ fails a ha, hl⟩
    · split
      · exact processSources_covers env B itemsB hBf rest arts nc _ hmem' it hit
      · exact processSources_covers env B itemsB hBf rest _ _ fails hmem' it hit

/-- A batch made only of already-present links leaves the item loop's accumulator and
counter untouched. -/
theorem processItems_all_dup (env : PassEnv) (src : Source) :
    ∀ (items : List RawItem) (arts : List Article) (nc : Nat),
      (∀ it ∈ items, it.link ∈ arts.map (·.link)) →
      processItems env src items arts nc = (arts, nc)
  | [], _, _, _ => rfl
  | it :: rest, arts, nc, h => by
    have hfound : (arts.find? fun a => a.link == it.link).isSome = true :=
      (find_link_isSome arts it.link).mpr (h it (by simp))
    rw [processItems, if_pos hfound]
    exact processItems_all_dup env src rest arts nc fun x hx => h x (by simp [hx])

/-- If every item any source successfully fetches is already present, the source loop
leaves the accumulator and the counter untouched. -/
theorem processSources_all_dup (env : PassEnv) :
    ∀ (srcs : List Source) (arts : List Article) (nc : Nat) (fails : List Nat),
      (∀ src ∈ srcs, ∀ items, fetchSource env.rss src = .ok items →
        ∀ it ∈ items, it.link ∈ arts.map (·.link)) →
      (processSources env srcs arts nc fails).1 = arts ∧
      (processSources env srcs arts nc fails).2.1 = nc
  | [], _, _, _, _ => ⟨rfl, rfl⟩
  | src :: rest, arts, nc, fails, h => by
    rw [processSources]
    cases hf : fetchSource env.rss src with
    | error e =>
      exact processSources_all_dup env rest arts nc _ fun x hx => h x (by simp [hx])
    | ok items =>
      have hpi : processItems env src items arts nc = (arts, nc) :=
        processItems_all_dup env src items arts nc (h src (by simp) items hf)
      simp only [hpi]
      exact processSources_all_dup env rest arts nc fails fun x hx => h x (by simp [hx])

/-- A list within capacity is left untouched by capacity enforcement. -/
theorem enforceCapacity_of_le (l : List Article) (h : l.length ≤ MAX_ARTICLES) :
    enforceCapacity l = l := by
  unfold enforceCapacity
  rw [if_neg (by omega)]

/-- Capacity enforcement never leaves more than `MAX_ARTICLES` articles. -/
theorem enforceCapacity_length_le (l : List Article) :
    (enforceCapacity l).length ≤ MAX_ARTICLES := by
  unfold enforceCapacity
  split
  · rw [List.length_take]
    omega
  · omega

/-- The capacity sort is sorted: later entries were fetched no later than earlier ones. -/
theorem sorted_sortByFetchedDesc (l : List Article) :
    List.Sorted fetchedGE (sortByFetchedDesc l) :=
  List.sorted_insertionSort fetchedGE l

/-- Everything the capacity cut drops was fetched no later than anything it keeps. -/
theorem sort_drop_le_take (l : List Article) :
    ∀ a ∈ (sortByFetchedDesc l).drop MAX_ARTICLES,
      ∀ b ∈ (sortByFetchedDesc l).take MAX_ARTICLES, a.fetched_at ≤ b.fetched_at := by
  have hs := sorted_sortByFetchedDesc l
  rw [← List.take_append_drop MAX_ARTICLES (sortByFetchedDesc l)] at hs
  have h2 := (List.pairwise_append.mp hs).2.2
  intro a ha b hb
  exact h2 b hb a ha

/-- Inserting an article of the timestamp class `t` puts it in front of the class members
already present (they all came later in the original list), leaving the class's order
otherwise alone. -/
theorem filter_orderedInsert_pos (t : Nat) (a : Article) (ht : a.fetched_at = t) :
    ∀ m : List Article,
      (List.orderedInsert fetchedGE a m).filter (fun x => x.fetched_at == t) =
        a :: m.filter (fun x => x.fetched_at == t)
  | [] => by simp [ht]
  | b :: m => by
    by_cases hb : fetchedGE a b
    · rw [List.orderedInsert_of_le fetchedGE m hb]
      simp [ht]
    · have hbt : ¬ b.fetched_at = t := by
        unfold fetchedGE at hb
        omega
      simp only [List.orderedInsert, if_neg hb]
      simp [hbt, filter_orderedInsert_pos t a ht m]

/-- Inserting an article outside the timestamp class `t` does not disturb the class. -/
theorem filter_orderedInsert_neg (t : Nat) (a : Article) (ht : ¬ a.fetched_at = t) :
    ∀ m : List Article,
      (List.orderedInsert fetchedGE a m).filter (fun x => x.fetched_at == t) =
        m.filter (fun x => x.fetched_at == t)
  | [] => by simp [ht]
  | b :: m => by
    by_cases hb : fetchedGE a b
    · rw [List.orderedInsert_of_le fetchedGE m hb]
      simp [ht]
    · simp only [List.orderedInsert, if_neg hb]
      by_cases hbt : b.fetched_at = t <;>
        simp [hbt, filter_orderedInsert_neg t a ht m]

/-- Stability of the capacity sort: each timestamp class keeps its original relative
order. -/
theorem filter_sortByFetchedDesc (t : Nat) :
    ∀ l : List Article,
      (sortByFetchedDesc l).filter (fun x => x.fetched_at == t) =
        l.filter (fun x => x.fetched_at == t)
  | [] => rfl
  | a :: l => by
    show (List.orderedInsert fetchedGE a (sortByFetchedDesc l)).filter
        (fun x => x.fetched_at == t) = _
    by_cases ht : a.fetched_at = t
    · rw [filter_orderedInsert_pos t a ht, filter_sortByFetchedDesc t l]
      simp [ht]
    · rw [filter_orderedInsert_neg t a ht, filter_sortByFetchedDesc t l]
      simp [ht]

/-- The filter of a take is a take of the filter (prefixes pass through `filter`). -/
theorem filter_take_eq_take_filter (p : Article → Bool) :
    ∀ (s : List Article) (n : Nat), ∃ k, (s.take n).filter p = (s.filter p).take k
  | [], _ => ⟨0, by simp⟩
  | _ :: _, 0 => ⟨0, by simp⟩
  | a :: s, n + 1 => by
    obtain ⟨k, hk⟩ := filter_take_eq_take_filter p s n
    by_cases hp : p a
    · exact ⟨k + 1, by simp [hp, hk]⟩
    · exact ⟨k, by simp [hp, hk]⟩

/-- Capacity enforcement keeps a sublist of a permutation of its input, so distinct links
stay distinct. -/
theorem enforceCapacity_nodup (l : List Article)
    (h : (l.map (·.link)).Nodup) : ((enforceCapacity l).map (·.link)).Nodup := by
  unfold enforceCapacity
  split
  · have hp : List.Perm (sortByFetchedDesc l) l := List.perm_insertionSort _ l
    have hnd : ((sortByFetchedDesc l).map (·.link)).Nodup :=
      ((hp.map (·.link)).nodup_iff).mpr h
    exact List.Nodup.sublist ((List.take_sublist _ _).map _) hnd
  · exact h

/-! ### Claims -/

/-- Claim C1: when a pass is already running (`isRunning = true`), `fetchArticles`
returns `{success:false, message:"Fetch already in progress"}`, leaves the state —
including both persisted files — untouched, and its result does not depend on the
contents of the article store or the source list (they are not read). -/
theorem fetchArticles_rejects_when_running (env : PassEnv) (s : SysState)
    (h : s.isRunning = true) :
    (fetchArticles env s).result.success = false ∧
    (fetchArticles env s).result.message = "Fetch already in progress" ∧
    (fetchArticles env s).state = s ∧
    ∀ sf af,
      (fetchArticles env { s with sourcesFile := sf, articlesFile := af }).result.success
          = false ∧
      (fetchArticles env { s with sourcesFile := sf, articlesFile := af }).result.message
          = "Fetch already in progress" ∧
      (fetchArticles env { s with sourcesFile := sf, articlesFile := af }).state
          = { s with sourcesFile := sf, articlesFile := af } := by
  refine ⟨?_, ?_, ?_, fun sf af => ⟨?_, ?_, ?_⟩⟩ <;> simp [fetchArticles, h]

/-- Witness for C1 at a concrete running state, with both files replaced by unreadable
ones for the independence conjunct. -/
theorem fetchArticles_rejects_when_running_w :
    (fetchArticles anyEnv runningState).result.success = false ∧
    (fetchArticles anyEnv runningState).result.message = "Fetch already in progress" ∧
    (fetchArticles anyEnv runningState).state = runningState ∧
    (fetchArticles anyEnv
        { runningState with sourcesFile := .error "x", articlesFile := .error "y"
        }).result.success = false :=
  have h := fetchArticles_rejects_when_running anyEnv runningState rfl
  ⟨h.1, h.2.1, h.2.2.1, (h.2.2.2 (.error "x") (.error "y")).1⟩

/-- Claim C2: starting from a store with pairwise distinct links, an item whose link is
already among the accumulated articles (loaded store plus items admitted earlier in the
same pass, across sources) is discarded — leaving both the accumulated list and the
`newCount` counter exactly as they were — and the store the pass persists has no two
articles with the same link. -/
theorem fetchArticles_dedup (env : PassEnv) (s : SysState) (srcs : List Source)
    (store : List Article) (hrun : s.isRunning = false) (hs : s.sourcesFile = .ok srcs)
    (ha : s.articlesFile = .ok store) (hnd : (store.map (·.link)).Nodup) :
    ((storeOf (fetchArticles env s).state).map (·.link)).Nodup ∧
    ∀ (src : Source) (it : RawItem) (rest : List RawItem) (arts : List Article) (nc : Nat),
      (arts.find? fun a => a.link == it.link).isSome = true →
      processItems env src (it :: rest) arts nc = processItems env src rest arts nc := by
  constructor
  · obtain ⟨run, sf, af⟩ := s
    simp only at hrun hs ha
    subst hrun
    subst hs
    subst ha
    show ((enforceCapacity
        (processSources env (srcs.filter fun x => x.enabled) store 0 []).1).map
          (·.link)).Nodup
    exact enforceCapacity_nodup _ (processSources_nodup env _ store 0 [] hnd)
  · intro src it rest arts nc hfound
    rw [processItems, if_pos hfound]

/-- Witness for C2: a pass over the one-article store, and the discard step at a concrete
duplicate item. -/
theorem fetchArticles_dedup_w :
    ((storeOf (fetchArticles anyEnv storeState).state).map (·.link)).Nodup ∧
    processItems anyEnv atomSource [itemX] [artX] 0 =
      processItems anyEnv atomSource [] [artX] 0 :=
  have h := fetchArticles_dedup anyEnv storeState [] [artX] rfl rfl rfl (by decide)
  ⟨h.1, h.2 atomSource itemX [] [artX] 0 (by decide)⟩

/-- An article whose only distinguishing datum is its `fetched_at` time, for the capacity
witnesses. -/
def mkArt (i : Nat) : Article :=
  { sourceId := 0, sourceName := "", title := "", link := "", published_at := none,
    summary := "", fetched_at := i }

/-- 201 articles with fetched times 200 down to 0carrying the capacity bound over. -/
def l201 : List Article := (List.range 201).map fun i => mkArt (200 - i)

/-- Claim C3: a merged list longer than `MAX_ARTICLES` is cut to exactly `MAX_ARTICLES`
articles; everything dropped was fetched no later than anything kept; within each
`fetched_at` timestamp class the kept articles are an initial segment of the class in
its original relative order (stability); a list within capacity is left unchanged; and
the store a successful pass persists never exceeds `MAX_ARTICLES`. -/
theorem enforceCapacity_spec (l : List Article) :
    (MAX_ARTICLES < l.length → (enforceCapacity l).length = MAX_ARTICLES) ∧
    (MAX_ARTICLES < l.length →
      ∀ a ∈ (sortByFetchedDesc l).drop MAX_ARTICLES, ∀ b ∈ enforceCapacity l,
        a.fetched_at ≤ b.fetched_at) ∧
    (∀ t : Nat, ∃ k, (enforceCapacity l).filter (fun x => x.fetched_at == t) =
      (l.filter fun x => x.fetched_at == t).take k) ∧
    (l.length ≤ MAX_ARTICLES → enforceCapacity l = l) ∧
    (∀ env s, (fetchArticles env s).result.success = true →
      (storeOf (fetchArticles env s).state).length ≤ MAX_ARTICLES) := by
  refine ⟨?_, ?_, ?_, enforceCapacity_of_le l, ?_⟩
  · intro h
    unfold enforceCapacity
    rw [if_pos h, List.length_take]
    have hlen : (sortByFetchedDesc l).length = l.length :=
      (List.perm_insertionSort _ l).length_eq
    omega
  · intro h a ha b hb
    have hcap : enforceCapacity l = (sortByFetchedDesc l).take MAX_ARTICLES := by
      unfold enforceCapacity
      rw [if_pos h]
    rw [hcap] at hb
    exact sort_drop_le_take l a ha b hb
  · intro t
    unfold enforceCapacity
    split
    · obtain ⟨k, hk⟩ := filter_take_eq_take_filter (fun x => x.fetched_at == t)
        (sortByFetchedDesc l) MAX_ARTICLES
      exact ⟨k, by rw [hk, filter_sortByFetchedDesc]⟩
    · exact ⟨(l.filter fun x => x.fetched_at == t).length, by rw [List.take_length]⟩
  · intro env s hsucc
    obtain ⟨run, sf, af⟩ := s
    cases run
    · cases sf with
      | error e => simp [fetchArticles] at hsucc
      | ok srcs =>
        cases af with
        | error e => simp [fetchArticles] at hsucc
        | ok store =>
          show (enforceCapacity
            (processSources env (srcs.filter fun x => x.enabled) store 0 []).1).length ≤
              MAX_ARTICLES
          exact enforceCapacity_length_le _
    · simp [fetchArticles] at hsucc

set_option maxRecDepth 40000

/-- Witness for C3: the 201-article list is cut to 200, the dropped oldest article is no
newer than the kept newest one, a singleton list is untouched, and a concrete pass
stays within capacity. -/
theorem enforceCapacity_spec_w :
    (enforceCapacity l201).length = MAX_ARTICLES ∧
    (mkArt 0).fetched_at ≤ (mkArt 200).fetched_at ∧
    enforceCapacity [artX] = [artX] ∧
    (storeOf (fetchArticles anyEnv idleState).state).length ≤ MAX_ARTICLES :=
  ⟨(enforceCapacity_spec l201).1 (by decide),
   (enforceCapacity_spec l201).2.1 (by decide) (mkArt 0) (by decide) (mkArt 200) (by decide),
   (enforceCapacity_spec [artX]).2.2.2.1 (by decide),
   (enforceCapacity_spec []).2.2.2.2 anyEnv idleState rfl⟩

/-- Claim C4: when in the same pass the fetch of one enabled source fails and that of
another enabled source succeeds, every item of the successful source is still ingested
into the merged store of the pass (it ends up covered by an accumulated article with
its link), and the pass reports `success:true` — the failure neither aborts the pass
nor rolls back accumulated work. -/
theorem fetchArticles_isolation (env : PassEnv) (s : SysState) (srcs : List Source)
    (store : List Article) (A B : Source) (eA : String) (itemsB : List RawItem)
    (hrun : s.isRunning = false) (hs : s.sourcesFile = .ok srcs)
    (ha : s.articlesFile = .ok store)
    (_hA : A ∈ srcs) (_hAe : A.enabled = true) (_hAf : fetchSource env.rss A = .error eA)
    (hB : B ∈ srcs) (hBe : B.enabled = true) (hBf : fetchSource env.rss B = .ok itemsB) :
    (fetchArticles env s).result.success = true ∧
    ∀ it ∈ itemsB, ∃ a ∈ (fetchArticles env s).merged, a.link = it.link := by
  obtain ⟨run, sf, af⟩ := s
  simp only at hrun hs ha
  subst hrun
  subst hs
  subst ha
  refine ⟨rfl, ?_⟩
  intro it hit
  have hBmem : B ∈ srcs.filter fun x => x.enabled := List.mem_filter.mpr ⟨hB, hBe⟩
  exact processSources_covers env B itemsB hBf _ store 0 [] hBmem it hit

/-- An enabled rss source whose fetch the witness environment fails. -/
def srcA : Source :=
  { id := 1, name := "A", url := "https://a.example/rss", type := "rss", enabled := true }

/-- An enabled rss source whose fetch the witness environment answers. -/
def srcB : Source :=
  { id := 2, name := "B", url := "https://b.example/rss", type := "rss", enabled := true }

/-- The feed entry the witness environment serves for `srcB`. -/
def feedItemB : FeedItem :=
  { title := "b", link := "https://b.example/1", pubDate := some 9,
    contentSnippet := some "snippet", content := none }

/-- The raw item `fetchSource` maps `feedItemB` to. -/
def itemB0 : RawItem :=
  { title := "b", link := "https://b.example/1", published := some 9, content := "snippet" }

/-- An environment in which fetching source 1 fails and any other source yields
`feedItemB`. -/
def envAB : PassEnv :=
  { rss := fun src => if src.id = 1 then .error "network down" else .ok [feedItemB],
    cap := fun _ => none, clock := fun _ => 5 }

/-- An idle state listing `srcA` and `srcB` over an empty store. -/
def stateAB : SysState :=
  { isRunning := false, sourcesFile := .ok [srcA, srcB], articlesFile := .ok [] }

/-- Witness for C4: a pass where `srcA` fails and `srcB` succeeds still succeeds. -/
theorem fetchArticles_isolation_w :
    (fetchArticles envAB stateAB).result.success = true :=
  (fetchArticles_isolation envAB stateAB [srcA, srcB] [] srcA srcB "network down" [itemB0]
    rfl rfl rfl (by decide) rfl rfl (by decide) rfl rfl).1

/-- Claim C5: a second pass run from the state a completed pass left behind, in which
every fetched item's link is already present in the persisted store, reports
`newCount = 0`, leaves the persisted store unchanged, and succeeds. -/
theorem fetchArticles_idempotent (env1 env2 : PassEnv) (s : SysState) (srcs : List Source)
    (store : List Article) (hrun : s.isRunning = false) (hs : s.sourcesFile = .ok srcs)
    (ha : s.articlesFile = .ok store)
    (hdup : ∀ src ∈ srcs.filter (fun x => x.enabled), ∀ items,
      fetchSource env2.rss src = .ok items → ∀ it ∈ items,
      it.link ∈ (storeOf (fetchArticles env1 s).state).map (·.link)) :
    (fetchArticles env2 (fetchArticles env1 s).state).newCount = 0 ∧
    storeOf (fetchArticles env2 (fetchArticles env1 s).state).state =
      storeOf (fetchArticles env1 s).state ∧
    (fetchArticles env2 (fetchArticles env1 s).state).result.success = true := by
  obtain ⟨run, sf, af⟩ := s
  simp only at hrun hs ha
  subst hrun
  subst hs
  subst ha
  have hps := processSources_all_dup env2 (srcs.filter fun x => x.enabled)
    (enforceCapacity (processSources env1 (srcs.filter fun x => x.enabled) store 0 []).1)
    0 [] hdup
  have hlen := enforceCapacity_length_le
    (processSources env1 (srcs.filter fun x => x.enabled) store 0 []).1
  refine ⟨hps.2, ?_, rfl⟩
  show enforceCapacity (processSources env2 (srcs.filter fun x => x.enabled)
      (enforceCapacity (processSources env1 (srcs.filter fun x => x.enabled) store 0 []).1)
      0 []).1 =
    enforceCapacity (processSources env1 (srcs.filter fun x => x.enabled) store 0 []).1
  rw [hps.1]
  exact enforceCapacity_of_le _ hlen

/-- Witness for C5: the second pass of `envAB` over the state the first pass produced
fetches only the already-stored `itemB0` link, so it admits nothing and keeps the
store. -/
theorem fetchArticles_idempotent_w :
    (fetchArticles envAB (fetchArticles envAB stateAB).state).newCount = 0 ∧
    storeOf (fetchArticles envAB (fetchArticles envAB stateAB).state).state =
      storeOf (fetchArticles envAB stateAB).state ∧
    (fetchArticles envAB (fetchArticles envAB stateAB).state).result.success = true :=
  fetchArticles_idempotent envAB envAB stateAB [srcA, srcB] [] rfl rfl rfl (by
    intro src hsrc items hitems it hit
    rw [show ([srcA, srcB].filter fun x => x.enabled) = [srcA, srcB] from rfl] at hsrc
    rcases List.mem_cons.mp hsrc with rfl | hsrc2
    · rw [show fetchSource envAB.rss srcA = .error "network down" from rfl] at hitems
      simp at hitems
    · rcases List.mem_cons.mp hsrc2 with rfl | h3
      · rw [show fetchSource envAB.rss srcB = .ok [itemB0] from rfl] at hitems
        injection hitems with h4
        subst h4
        have h5 : it = itemB0 := by simpa using hit
        subst h5
        decide
      · simp at h3)

/-- Claim C6: a failure of the summarizer's underlying capability on an item is degraded
to the deterministic fallback summary, the item's article is still admitted and the
loop continues with the remaining items of its source, and the pass result's success
is the same whatever the capability does — the failure is never surfaced to the
caller. -/
theorem summarizer_degraded (env : PassEnv) (s : SysState) (src : Source)
    (it : RawItem) (rest : List RawItem) (arts : List Article) (nc : Nat)
    (hfail : env.cap it.content = none)
    (hfresh : (arts.find? fun a => a.link == it.link).isSome = false) :
    summarize env.cap it.content = fallbackSummary it.content ∧
    processItems env src (it :: rest) arts nc =
      processItems env src rest
        (arts ++ [{ sourceId := src.id, sourceName := src.name, title := it.title,
                    link := it.link, published_at := it.published,
                    summary := fallbackSummary it.content,
                    fetched_at := env.clock nc }]) (nc + 1) ∧
    ∀ cap2, (fetchArticles { env with cap := cap2 } s).result.success =
      (fetchArticles env s).result.success := by
  have hsum : summarize env.cap it.content = fallbackSummary it.content := by
    unfold summarize
    rw [hfail]
  refine ⟨hsum, ?_, ?_⟩
  · rw [processItems, if_neg (by simp [hfresh]), hsum]
  · intro cap2
    obtain ⟨run, sf, af⟩ := s
    cases run <;> cases sf <;> cases af <;> rfl

/-- Witness for C6: the failing capability of `anyEnv` on `itemX` over an empty
accumulator. -/
theorem summarizer_degraded_w :
    summarize anyEnv.cap itemX.content = fallbackSummary itemX.content ∧
    processItems anyEnv atomSource [itemX] [] 0 =
      processItems anyEnv atomSource []
        [{ sourceId := atomSource.id, sourceName := atomSource.name, title := itemX.title,
           link := itemX.link, published_at := itemX.published,
           summary := fallbackSummary itemX.content, fetched_at := anyEnv.clock 0 }] 1 ∧
    (fetchArticles { anyEnv with cap := fun _ => some "s" } idleState).result.success =
      (fetchArticles anyEnv idleState).result.success :=
  have h := summarizer_degraded anyEnv idleState atomSource itemX [] [] 0 rfl rfl
  ⟨h.1, h.2.1, h.2.2 (fun _ => some "s")⟩

/-- An article with a missing/unparseable publication date. -/
def invalidArt : Article :=
  { sourceId := 1, sourceName := "s", title := "no date", link := "https://x/a",
    published_at := none, summary := "", fetched_at := 10 }

/-- An article with a valid publication date. -/
def validArt : Article :=
  { sourceId := 1, sourceName := "s", title := "dated", link := "https://x/b",
    published_at := some 5, summary := "", fetched_at := 11 }

/-- A second article with a valid, newer publication date. -/
def validArt2 : Article :=
  { sourceId := 1, sourceName := "s", title := "dated later", link := "https://x/c",
    published_at := some 7, summary := "", fetched_at := 12 }

/-- When the comparator does not demand a swap of `a` past `b`, and it is not a NaN tie,
`a` published no earlier than... more precisely, a strict positive comparator forces
`pubVal a < pubVal b`; used for the element passed over by `orderedInsert`. -/
theorem pubVal_le_of_not_feedLE (a b : Article) (h : ¬ feedLE a b) :
    pubVal a ≤ pubVal b := by
  unfold feedLE feedCmp at h
  unfold pubVal
  cases ha : a.published_at with
  | none =>
    rw [ha] at h
    simp at h
  | some ta =>
    cases hb : b.published_at with
    | none =>
      rw [ha, hb] at h
      simp at h
    | some tb =>
      rw [ha, hb] at h
      simp at h ⊢
      omega

/-- Inserting an article with a parseable date into a descending all-parseable list keeps
it sorted descending by publication value. -/
theorem feed_orderedInsert_sorted (a : Article) (ha : a.published_at.isSome = true) :
    ∀ m : List Article, (∀ x ∈ m, x.published_at.isSome = true) →
      List.Pairwise (fun x y => pubVal y ≤ pubVal x) m →
      List.Pairwise (fun x y => pubVal y ≤ pubVal x) (List.orderedInsert feedLE a m)
  | [], _, _ => by simp
  | b :: m, hm, hs => by
    by_cases hab : feedLE a b
    · rw [List.orderedInsert_of_le feedLE m hab]
      refine List.Pairwise.cons ?_ hs
      have hba : pubVal b ≤ pubVal a := by
        obtain ⟨ta, hta⟩ := Option.isSome_iff_exists.mp ha
        obtain ⟨tb, htb⟩ := Option.isSome_iff_exists.mp (hm b (by simp))
        unfold feedLE feedCmp at hab
        rw [hta, htb] at hab
        unfold pubVal
        rw [hta, htb]
        simp at hab ⊢
        omega
      intro y hy
      rcases List.mem_cons.mp hy with rfl | hy2
      · exact hba
      · exact le_trans (List.rel_of_pairwise_cons hs hy2) hba
    · simp only [List.orderedInsert, if_neg hab]
      have hrest := feed_orderedInsert_sorted a ha m
        (fun x hx => hm x (by simp [hx])) (List.pairwise_cons.mp hs).2
      refine List.Pairwise.cons ?_ hrest
      intro y hy
      rcases (List.mem_orderedInsert feedLE).mp hy with rfl | hy2
      · exact pubVal_le_of_not_feedLE y b hab
      · exact (List.pairwise_cons.mp hs).1 y hy2

/-- The feed sort of a list whose dates all parse is sorted descending by publication
value. -/
theorem feed_sorted_all_parse :
    ∀ l : List Article, (∀ a ∈ l, a.published_at.isSome = true) →
      List.Pairwise (fun x y => pubVal y ≤ pubVal x) (jsSortFeed l)
  | [], _ => by simp [jsSortFeed]
  | a :: l, h => by
    show List.Pairwise _ (List.orderedInsert feedLE a (jsSortFeed l))
    refine feed_orderedInsert_sorted a (h a (by simp)) (jsSortFeed l) ?_
      (feed_sorted_all_parse l fun x hx => h x (by simp [hx]))
    intro x hx
    have hx2 : x ∈ l := by simpa [jsSortFeed] using hx
    exact h x (by simp [hx2])

/-- Claim C8 counterexample: an article with a missing/unparseable `published_at` is not
ordered after the articles with valid dates. With the store `[invalidArt, validArt]`
every comparison against `invalidArt` is `NaN`, the sort keeps it in place, and the
feed returns it first — the claim instead requires `[validArt, invalidArt]`. -/
theorem feed_invalid_not_oldest :
    feed (.ok [invalidArt, validArt]) = .ok [invalidArt, validArt] ∧
    invalidArt.published_at = none ∧
    validArt.published_at = some 5 ∧
    invalidArt ≠ validArt ∧
    jsSortFeed [invalidArt, validArt] ≠ [validArt, invalidArt] :=
  ⟨rfl, rfl, rfl, by decide, by decide⟩

/-- Claim C8 amended: the feed read returns exactly the stored articles (a permutation of
the store), and they are sorted by `published_at` descending whenever every stored
article's date parses; an article with missing/unparseable `published_at` compares as
`NaN` — treated by the sort as no preference — so it keeps its relative position
rather than sorting as oldest. -/
theorem feed_sorted_amended (l : List Article) :
    List.Perm (jsSortFeed l) l ∧
    feed (.ok l) = .ok (jsSortFeed l) ∧
    ((∀ a ∈ l, (a.published_at).isSome = true) →
      List.Pairwise (fun a b => pubVal b ≤ pubVal a) (jsSortFeed l)) :=
  ⟨List.perm_insertionSort feedLE l, rfl, feed_sorted_all_parse l⟩

/-- Witness for the amended C8 on a concrete two-article all-parseable store. -/
theorem feed_sorted_amended_w :
    List.Perm (jsSortFeed [validArt2, validArt]) [validArt2, validArt] ∧
    feed (.ok [validArt2, validArt]) = .ok (jsSortFeed [validArt2, validArt]) ∧
    List.Pairwise (fun a b => pubVal b ≤ pubVal a) (jsSortFeed [validArt2, validArt]) :=
  have h := feed_sorted_amended [validArt2, validArt]
  ⟨h.1, h.2.1, h.2.2 (by decide)⟩

/-- Claim C9: whenever `fetchArticles` actually starts a pass (the guard was idle at
entry), the guard is back to `isRunning = false` when the call completes, on every exit
path — for every environment, so in particular whatever failures the adapter reports
and whatever the summarizer capability does, and for unreadable files. -/
theorem fetchArticles_resets_guard (env : PassEnv) (s : SysState)
    (h : s.isRunning = false) :
    (fetchArticles env s).state.isRunning = false := by
  obtain ⟨run, sf, af⟩ := s
  simp only at h
  subst h
  cases sf <;> cases af <;> rfl

/-- Witness for C9 at a concrete idle state. -/
theorem fetchArticles_resets_guard_w :
    (fetchArticles anyEnv idleState).state.isRunning = false :=
  fetchArticles_resets_guard anyEnv idleState rfl

/-- Claim C10: a source whose `type` is not `'rss'` makes `fetchSource` return the empty
list without error, so in the per-source loop it contributes no articles, leaves the
counter alone, and is not recorded as a failed source. -/
theorem fetchSource_non_rss (env : PassEnv) (src : Source) (rest : List Source)
    (arts : List Article) (nc : Nat) (fails : List Nat)
    (h : ¬ src.type = "rss") :
    fetchSource env.rss src = .ok [] ∧
    processSources env (src :: rest) arts nc fails = processSources env rest arts nc fails := by
  have h1 : fetchSource env.rss src = .ok [] := by
    unfold fetchSource
    rw [if_neg h]
  exact ⟨h1, by simp [processSources, h1, processItems]⟩

/-- Witness for C10 at a concrete `'atom'` source. -/
theorem fetchSource_non_rss_w :
    fetchSource anyEnv.rss atomSource = .ok [] ∧
    processSources anyEnv [atomSource] [] 0 [] = processSources anyEnv [] [] 0 [] :=
  fetchSource_non_rss anyEnv atomSource [] [] 0 [] (by decide)

/-- Claim C7 counterexample: at a state whose articles file is corrupt, the pass does not
proceed from an empty store — it fails with `success:false` and the corrupt persisted
state is left in place rather than being read as an empty store. -/
theorem corrupt_store_not_empty :
    (fetchArticles anyEnv corruptState).result.success = false ∧
    (fetchArticles anyEnv corruptState).state.articlesFile =
      .error "Unexpected token o in JSON at position 1" :=
  ⟨rfl, rfl⟩

/-- Claim C7 amended: a missing data file is initialized to `'[]'` at server startup, but
a corrupt articles file at pass time is not treated as an empty store: the pass fails
with `{success:false, message}` — a caught error, not a fatal one — leaving the whole
state (both persisted files) unchanged except for the guard reset. -/
theorem corrupt_store_pass_fails (env : PassEnv) (s : SysState) (srcs : List Source)
    (e : String) (hrun : s.isRunning = false) (hs : s.sourcesFile = .ok srcs)
    (ha : s.articlesFile = .error e) :
    (fetchArticles env s).result.success = false ∧
    (fetchArticles env s).result.message = e ∧
    (fetchArticles env s).state = { s with isRunning := false } := by
  obtain ⟨run, sf, af⟩ := s
  simp only at hrun hs ha
  subst hrun
  subst hs
  subst ha
  exact ⟨rfl, rfl, rfl⟩

/-- Witness for the amended C7 at the concrete corrupt state. -/
theorem corrupt_store_pass_fails_w :
    (fetchArticles anyEnv corruptState).result.success = false ∧
    (fetchArticles anyEnv corruptState).result.message =
      "Unexpected token o in JSON at position 1" ∧
    (fetchArticles anyEnv corruptState).state = { corruptState with isRunning := false } :=
  corrupt_store_pass_fails anyEnv corruptState [] _ rfl rfl rfl

end NewsFeed
